import Mathlib

/-
Verification of the DuinoBus packet framing engine (src/src/Packet.cpp,
src/src/Packet.h).  The decoder and encoder state machines are embedded
shallowly: the fixed C byte buffer `m_data` together with `m_dataLen` is
modelled as the list of currently valid bytes, machine bytes are `Nat`
values below 256, and each C++ member function becomes a pure function on
an explicit `Packet` state.
-/

/-- Frame delimiter byte (start/end of frame, SLIP END), 0xC0. -/
def END : Nat := 0xC0

/-- Escape marker byte (SLIP ESC), 0xDB. -/
def ESC : Nat := 0xDB

/-- Escaped form of END, 0xDC. -/
def ESC_END : Nat := 0xDC

/-- Escaped form of ESC, 0xDD. -/
def ESC_ESC : Nat := 0xDD

/-- Modelled from the spec: the CRC-8 primitive (Crc8.h / Crc8.cpp are not
among the provided sources; the spec fixes the checksum as a standard
crc-8 profile, the one of crcmod's predefined crc-8: polynomial 0x07,
initial value 0, MSB first, no reflection, no final xor).  This is one
update step: xor the byte into the running crc, then eight MSB-first
polynomial-division steps. -/
def crc8Byte (crc b : Nat) : Nat :=
  (List.range 8).foldl
    (fun c _ => if 128 ≤ c then ((c * 2) ^^^ 0x07) % 256 else (c * 2) % 256)
    ((crc ^^^ b) % 256)

/-- Modelled from the spec: CRC-8 over a byte sequence, seeded with `crc`.
The C++ call `Crc8(crc, numBytes, data)` corresponds to `Crc8 crc l` where
`l` is the list of the first `numBytes` buffer bytes. -/
def Crc8 (crc : Nat) (data : List Nat) : Nat :=
  data.foldl crc8Byte crc

/-- Parser/encoder state of a Packet (`Packet::State` in Packet.h). -/
inductive Packet.State
  | IDLE
  | PACKET
  | ESCAPE
deriving DecidableEq, Repr

/-- Error codes (`packet::Error` in Packet.h). -/
inductive Error
  | NONE
  | NOT_DONE
  | CRC
  | TIMEOUT
  | TOO_MUCH_DATA
  | TOO_SMALL
  | BAD_STATE
deriving DecidableEq, Repr

/-- The Packet object (class `packet::Packet`).  `maxData` is `m_maxData`;
`data` models the valid prefix `m_data[0 .. m_dataLen)` of the caller
supplied buffer, so `data.length` is `m_dataLen`; `state` is `m_state`
and `encodeIdx` is `m_encodeIdx`. -/
structure Packet where
  maxData : Nat
  data : List Nat
  state : Packet.State
  encodeIdx : Nat
deriving DecidableEq, Repr

/-- A freshly constructed packet, `Packet(maxData, data)`: empty buffer,
parser in IDLE, encode index 0. -/
def freshPacket (maxData : Nat) : Packet :=
  ⟨maxData, [], .IDLE, 0⟩

/-- A packet prepared for transmission: `command(cmd)` writes `m_data[0]`
and `setData(payload)` sets `m_dataLen := 1` then appends the payload, so
the valid bytes are `cmd :: payload`. -/
def mkTx (maxData cmd : Nat) (payload : List Nat) : Packet :=
  ⟨maxData, cmd :: payload, .IDLE, 0⟩

/-- One step of the decoder state machine, `Packet::processByte`. -/
def processByte (p : Packet) (byte : Nat) : Error × Packet :=
  match p.state with
  | .IDLE =>
    (.NOT_DONE, { p with state := .PACKET, data := [] })
  | .PACKET =>
    if byte = END then
      if p.data.length = 0 then
        (.NOT_DONE, p)
      else if p.data.length = 1 then
        (.TOO_SMALL, p)
      else
        if p.data.getD (p.data.length - 1) 0 =
            Crc8 0 (p.data.take (p.data.length - 1)) then
          (.NONE, { p with state := .IDLE })
        else
          (.CRC, p)
    else if p.maxData ≤ p.data.length then
      (.TOO_MUCH_DATA, p)
    else if byte = ESC then
      (.NOT_DONE, { p with state := .ESCAPE })
    else
      (.NOT_DONE, { p with data := p.data ++ [byte] })
  | .ESCAPE =>
    if byte = ESC_END then
      (.NOT_DONE, { p with data := p.data ++ [END], state := .PACKET })
    else if byte = ESC_ESC then
      (.NOT_DONE, { p with data := p.data ++ [ESC], state := .PACKET })
    else
      (.NOT_DONE, { p with data := p.data ++ [byte], state := .PACKET })

/-- Resets the encoder, `Packet::encodeStart`. -/
def encodeStart (p : Packet) : Packet :=
  { p with state := .IDLE }

/-- One step of the encoder state machine, `Packet::encodeByte`: returns
the produced byte, the error code and the updated packet. -/
def encodeByte (p : Packet) : Nat × Error × Packet :=
  match p.state with
  | .IDLE =>
    (END, .NOT_DONE, { p with encodeIdx := 0, state := .PACKET })
  | .PACKET =>
    if p.data.length ≤ p.encodeIdx then
      if p.encodeIdx = p.data.length then
        (Crc8 0 p.data, .NOT_DONE, { p with encodeIdx := p.encodeIdx + 1 })
      else
        (END, .NONE, { p with state := .IDLE })
    else
      if p.data.getD p.encodeIdx 0 = END ∨ p.data.getD p.encodeIdx 0 = ESC then
        (ESC, .NOT_DONE, { p with state := .ESCAPE })
      else
        (p.data.getD p.encodeIdx 0, .NOT_DONE,
          { p with encodeIdx := p.encodeIdx + 1 })
  | .ESCAPE =>
    if p.data.getD p.encodeIdx 0 = END then
      (ESC_END, .NOT_DONE, { p with encodeIdx := p.encodeIdx + 1, state := .PACKET })
    else
      (ESC_ESC, .NOT_DONE, { p with encodeIdx := p.encodeIdx + 1, state := .PACKET })

/-- Feeds bytes one at a time through `processByte`, stopping at the first
result other than NOT_DONE (the driver loop `PacketDecodeTest::parseData`
in src/tests/PacketDecodeTest.cpp); the result is NOT_DONE exactly when
every call returned NOT_DONE. -/
def parseData : Packet → List Nat → Error × Packet
  | p, [] => (.NOT_DONE, p)
  | p, b :: rest =>
    match processByte p b with
    | (.NOT_DONE, q) => parseData q rest
    | r => r

/-- Feeds every byte of the list through `processByte`, keeping the final
state regardless of intermediate results. -/
def runBytes (p : Packet) (bs : List Nat) : Packet :=
  bs.foldl (fun q b => (processByte q b).2) p

/-- Drives `encodeByte` until it returns something other than NOT_DONE (the
driver loop of PacketEncodeTest), collecting the produced bytes; the fuel
bounds the number of steps. -/
def encodeRun : Packet → Nat → List Nat × Error × Packet
  | p, 0 => ([], .NOT_DONE, p)
  | p, fuel + 1 =>
    match encodeByte p with
    | (b, .NOT_DONE, q) =>
      let r := encodeRun q fuel
      (b :: r.1, r.2.1, r.2.2)
    | (b, e, q) => ([b], e, q)

/-- A complete encode session: `encodeStart` then `encodeByte` until done.
An encode needs at most `2 * m_dataLen + 3` steps (frame byte, at most two
bytes per stored byte, checksum, closing frame byte). -/
def encodeSession (p : Packet) : List Nat × Error × Packet :=
  encodeRun (encodeStart p) (2 * p.data.length + 3)

/-- The two-byte SLIP escape of a reserved byte and the identity on every
other byte; the encoder emits exactly `escapeByte b` for a stored byte `b`. -/
def escapeByte (b : Nat) : List Nat :=
  if b = END then [ESC, ESC_END]
  else if b = ESC then [ESC, ESC_ESC]
  else [b]

/-- Accessor `Packet::command`: the first stored byte. -/
def Packet.command (p : Packet) : Nat :=
  p.data.getD 0 0

/-- Accessor `Packet::data`/`Packet::length` combined: the data bytes
between the command and the CRC. -/
def Packet.payload (p : Packet) : List Nat :=
  (p.data.drop 1).take (p.data.length - 2)

/-- Accessor `Packet::crc`: guarded by `assert(m_dataLen >= 2)`, so it is
modelled as returning `none` (the abort) when fewer than two bytes are
stored and `some m_data[m_dataLen - 1]` otherwise. -/
def Packet.crc (p : Packet) : Option Nat :=
  if 2 ≤ p.data.length then some (p.data.getD (p.data.length - 1) 0) else none

/-- Accessor `Packet::length`: computes `m_dataLen - 2` in `size_t`
arithmetic (wrapping modulo 2^64) and truncates the result to `uint8_t`
(modulo 256). -/
def Packet.length (p : Packet) : Nat :=
  (p.data.length + (2 ^ 64 - 2)) % 2 ^ 64 % 256

example : Crc8 0 [0x01] = 0x07 := by decide
example : Crc8 0 [0x01, 0x02] = 0x1b := by decide
example : Crc8 0 [0x01, 0x02, 0x03] = 0x48 := by decide
example : Crc8 0 [0x41] = 0xC0 := by decide
example : (parseData (freshPacket 16) [0xC0, 0x01, 0x07, 0xC0]).1 = .NONE := by decide
example : (parseData (freshPacket 16) [0xC0, 0x01, 0x08, 0xC0]).1 = .CRC := by decide
example : (parseData (freshPacket 16) [0xC0, 0x01, 0xC0]).1 = .TOO_SMALL := by decide
example : (encodeSession (mkTx 16 0x01 [0x02])).1 = [0xC0, 0x01, 0x02, 0x1b, 0xC0] := by decide
example : (encodeSession (mkTx 16 0xC0 [0x02, 0x03])).1 =
    [0xC0, 0xDB, 0xDC, 0x02, 0x03, 0xAE, 0xC0] := by decide
example : (encodeSession (mkTx 16 0x41 [])).1 = [0xC0, 0x41, 0xC0, 0xC0] := by decide

/-- Helper: reading a concatenation at the length of its left part yields
the first byte of the right part. -/
theorem getD_append_len (pre l : List Nat) (b d : Nat) :
    (pre ++ b :: l).getD pre.length d = b := by
  induction pre with
  | nil => rfl
  | cons x xs ih => simpa using ih

/-- C6: in the IDLE state, `processByte` discards the byte's value, resets
the accumulated length to 0, moves to the PACKET (InFrame) state and
returns NOT_DONE. -/
theorem c6_idle_consumes_first_byte (p : Packet) (b : Nat) (h : p.state = .IDLE) :
    processByte p b = (.NOT_DONE, { p with state := .PACKET, data := [] }) := by
  simp [processByte, h]

/-- C6 witness: a fresh packet is IDLE and consumes the byte 0x37. -/
theorem c6_witness :
    (freshPacket 16).state = .IDLE ∧
      processByte (freshPacket 16) 0x37 =
        (.NOT_DONE, { freshPacket 16 with state := .PACKET, data := [] }) :=
  ⟨rfl, c6_idle_consumes_first_byte (freshPacket 16) 0x37 rfl⟩

/-- Helper: in the PACKET state with an empty buffer, any number of END
bytes all return NOT_DONE and leave the decoder unchanged. -/
theorem parse_ends (cap i k : Nat) :
    parseData (⟨cap, [], .PACKET, i⟩ : Packet) (List.replicate k END) =
      (.NOT_DONE, ⟨cap, [], .PACKET, i⟩) := by
  induction k with
  | zero => rfl
  | succ k ih =>
    rw [List.replicate_succ]
    simpa [parseData, processByte] using ih

/-- C7: feeding n ≥ 1 consecutive END bytes to a fresh decoder yields
NOT_DONE with no completion and no error (`parseData` stops at the first
result other than NOT_DONE, so a NOT_DONE outcome means every single
`processByte` call returned NOT_DONE); the decoder ends InFrame with an
empty buffer, ready to collect a frame. -/
theorem c7_empty_frame_tolerance (cap n : Nat) (h : 1 ≤ n) :
    parseData (freshPacket cap) (List.replicate n END) =
      (.NOT_DONE, ⟨cap, [], .PACKET, 0⟩) := by
  obtain ⟨k, rfl⟩ : ∃ k, n = k + 1 := ⟨n - 1, by omega⟩
  rw [List.replicate_succ]
  simpa [parseData, processByte, freshPacket] using parse_ends cap 0 k

/-- C7 witness: two END bytes (the C0 C0 test) yield NOT_DONE. -/
theorem c7_witness :
    parseData (freshPacket 16) (List.replicate 2 END) =
      (.NOT_DONE, ⟨16, [], .PACKET, 0⟩) :=
  c7_empty_frame_tolerance 16 2 (by decide)

/-- C8: in the ESCAPE state, `processByte` appends END for ESC_END, ESC for
ESC_ESC, and the byte itself for every other value, returns to the PACKET
state and returns NOT_DONE — it never reports an error for a malformed
escape pair. -/
theorem c8_lenient_deescaping (p : Packet) (b : Nat) (h : p.state = .ESCAPE) :
    processByte p b =
      (.NOT_DONE,
        { p with
          data := p.data ++ [if b = ESC_END then END else if b = ESC_ESC then ESC else b],
          state := .PACKET }) := by
  simp only [processByte, h]
  split_ifs <;> rfl

/-- C8 witness: escaping state on the (malformed) pair byte 0x01 stores
0x01 literally. -/
theorem c8_witness :
    processByte (⟨16, [0x05], .ESCAPE, 0⟩ : Packet) 0x01 =
      (.NOT_DONE, ⟨16, [0x05, 0x01], .PACKET, 0⟩) := by
  have h := c8_lenient_deescaping (⟨16, [0x05], .ESCAPE, 0⟩ : Packet) 0x01 rfl
  simpa using h

/-- C9: the crc accessor is defined only under the precondition that at
least two bytes are stored; then it returns the last stored byte, and with
fewer than two stored bytes it aborts (modelled as none) — in particular
on a fresh packet and after only the opening END has been consumed. -/
theorem c9_crc_accessor_precondition (p : Packet) (cap : Nat) :
    (2 ≤ p.data.length → p.crc = some (p.data.getD (p.data.length - 1) 0)) ∧
    (p.data.length < 2 → p.crc = none) ∧
    (freshPacket cap).crc = none ∧
    (processByte (freshPacket cap) END).2.crc = none := by
  refine ⟨fun h => ?_, fun h => ?_, rfl, rfl⟩
  · simp [Packet.crc, h]
  · simp [Packet.crc]
    omega

/-- C9 witness: a packet holding command 0x01 and crc byte 0x07 satisfies
the precondition and the accessor returns 0x07. -/
theorem c9_witness :
    (⟨16, [0x01, 0x07], .IDLE, 0⟩ : Packet).crc = some 0x07 := by
  have h := (c9_crc_accessor_precondition (⟨16, [0x01, 0x07], .IDLE, 0⟩ : Packet) 16).1
    (by decide)
  simpa using h

/-- C10: the length accessor computes `m_dataLen - 2` in wrapping size_t
arithmetic truncated to uint8_t, so a fresh packet (m_dataLen = 0) reports
254, and the value equals the true data-byte count only when m_dataLen ≥ 2
and m_dataLen - 2 fits in 8 bits. -/
theorem c10_length_accessor_wraps (p : Packet) (cap : Nat) :
    Packet.length p = (p.data.length + (2 ^ 64 - 2)) % 2 ^ 64 % 256 ∧
    Packet.length (freshPacket cap) = 254 ∧
    (2 ≤ p.data.length → p.data.length < 2 ^ 64 → p.data.length - 2 < 256 →
      Packet.length p = p.data.length - 2) := by
  refine ⟨rfl, ?_, fun h1 h2 h3 => ?_⟩
  · show (List.length [] + (2 ^ 64 - 2)) % 2 ^ 64 % 256 = 254
    decide
  · unfold Packet.length
    omega

/-- C10 witness: a packet with five stored bytes reports length 3. -/
theorem c10_witness :
    Packet.length (⟨16, [1, 2, 3, 4, 5], .IDLE, 0⟩ : Packet) = 3 := by
  have h := (c10_length_accessor_wraps (⟨16, [1, 2, 3, 4, 5], .IDLE, 0⟩ : Packet) 16).2.2
    (by decide) (by norm_num) (by decide)
  simpa using h

/-- The capacity invariant maintained by the decoder: the stored length
never exceeds the capacity, and in the ESCAPE state there is always room
for the pending unconditional append. -/
def capInv (p : Packet) : Prop :=
  p.data.length ≤ p.maxData ∧ (p.state = .ESCAPE → p.data.length < p.maxData)

/-- Helper: `processByte` never changes the capacity. -/
theorem processByte_maxData (p : Packet) (b : Nat) :
    (processByte p b).2.maxData = p.maxData := by
  unfold processByte
  cases p.state <;> split_ifs <;> rfl

/-- Helper: one decoder step preserves the capacity invariant. -/
theorem capInv_processByte (p : Packet) (b : Nat) (h : capInv p) :
    capInv (processByte p b).2 := by
  obtain ⟨h1, h2⟩ := h
  unfold capInv processByte at *
  cases hs : p.state <;> simp [hs] at h2 ⊢ <;> split_ifs <;>
    simp_all <;> omega

/-- Helper: one decoder step can only grow the buffer when there is room. -/
theorem processByte_growth (p : Packet) (b : Nat) (h : capInv p)
    (hg : p.data.length < (processByte p b).2.data.length) :
    p.data.length < p.maxData := by
  obtain ⟨h1, h2⟩ := h
  unfold processByte at hg
  cases hs : p.state <;> simp [hs] at h2 hg <;> split_ifs at hg <;>
    simp_all

/-- Helper: `runBytes` preserves the capacity invariant and the capacity. -/
theorem capInv_runBytes (bs : List Nat) (p : Packet) (h : capInv p) :
    capInv (runBytes p bs) ∧ (runBytes p bs).maxData = p.maxData := by
  induction bs generalizing p with
  | nil => exact ⟨h, rfl⟩
  | cons b rest ih =>
    have step := ih (processByte p b).2 (capInv_processByte p b h)
    refine ⟨step.1, ?_⟩
    rw [show runBytes p (b :: rest) = runBytes (processByte p b).2 rest from rfl] at *
    rw [step.2, processByte_maxData]

/-- C4: for every byte sequence fed from a fresh decoder of capacity `cap`,
the stored length never exceeds `cap`; in the ESCAPE state (whose append is
unconditional in the code) strictly fewer than `cap` bytes are stored, so
every append writes at an index below `cap`; the buffer also stays within
`cap` after one further arbitrary byte, a byte is only appended when there
was room, and a non-END byte arriving InFrame with the buffer full returns
TOO_MUCH_DATA and leaves the packet unchanged. -/
theorem c4_capacity_enforcement (cap : Nat) (bs : List Nat) :
    (runBytes (freshPacket cap) bs).data.length ≤ cap ∧
    ((runBytes (freshPacket cap) bs).state = .ESCAPE →
      (runBytes (freshPacket cap) bs).data.length < cap) ∧
    (∀ b, (processByte (runBytes (freshPacket cap) bs) b).2.data.length ≤ cap) ∧
    (∀ b, (runBytes (freshPacket cap) bs).data.length <
        (processByte (runBytes (freshPacket cap) bs) b).2.data.length →
      (runBytes (freshPacket cap) bs).data.length < cap) ∧
    (∀ b, b ≠ END → (runBytes (freshPacket cap) bs).state = .PACKET →
      (runBytes (freshPacket cap) bs).data.length = cap →
      processByte (runBytes (freshPacket cap) bs) b =
        (.TOO_MUCH_DATA, runBytes (freshPacket cap) bs)) := by
  have h0 : capInv (freshPacket cap) := by
    constructor
    · simp [freshPacket]
    · intro h
      simp [freshPacket] at h
  obtain ⟨hinv, hmax⟩ := capInv_runBytes bs (freshPacket cap) h0
  have hmax' : (runBytes (freshPacket cap) bs).maxData = cap := by
    simpa [freshPacket] using hmax
  refine ⟨?_, fun h => ?_, fun b => ?_, fun b hg => ?_, ?_⟩
  · exact le_of_le_of_eq hinv.1 hmax'
  · exact lt_of_lt_of_eq (hinv.2 h) hmax'
  · have := (capInv_processByte _ b hinv).1
    rwa [processByte_maxData, hmax'] at this
  · have := processByte_growth _ b hinv hg
    rwa [hmax'] at this
  · intro b hb hs hlen
    unfold processByte
    rw [hs]
    simp only [hb, if_false]
    rw [if_pos (show (runBytes (freshPacket cap) bs).maxData ≤
        (runBytes (freshPacket cap) bs).data.length by rw [hmax', hlen])]

/-- C4 witness: on capacity 1, after [0x00, 0x05] the buffer holds one byte
(full) and a further non-END byte 0x06 yields TOO_MUCH_DATA. -/
theorem c4_witness :
    processByte (runBytes (freshPacket 1) [0x00, 0x05]) 0x06 =
      (.TOO_MUCH_DATA, runBytes (freshPacket 1) [0x00, 0x05]) :=
  (c4_capacity_enforcement 1 [0x00, 0x05]).2.2.2.2 0x06 (by decide) (by decide) (by decide)

/-- C3 (amended): after a Complete result (NONE) the decoder is back in
IDLE, so the next `processByte` call begins a fresh frame — it consumes its
byte as a frame-start trigger, resets the accumulated length to 0 and
returns NOT_DONE; after a ChecksumMismatch (CRC) or FrameTooSmall
(TOO_SMALL) result, however, the decoder is left unchanged in the PACKET
(InFrame) state with the previous frame's bytes still accumulated. -/
theorem processByte_from_idle (p : Packet) (b : Nat) (h : p.state = .IDLE) :
    processByte p b = (.NOT_DONE, { p with state := .PACKET, data := [] }) := by
  simp [processByte, h]

theorem c3_restart_after_terminal (p : Packet) (b nxt : Nat) :
    ((processByte p b).1 = .NONE →
      (processByte p b).2.state = .IDLE ∧
        processByte (processByte p b).2 nxt =
          (.NOT_DONE, { (processByte p b).2 with state := .PACKET, data := [] })) ∧
    ((processByte p b).1 = .CRC ∨ (processByte p b).1 = .TOO_SMALL →
      (processByte p b).2 = p ∧ p.state = .PACKET) := by
  obtain ⟨max, d, st, idx⟩ := p
  constructor
  · intro h
    have hs2 : (processByte ⟨max, d, st, idx⟩ b).2.state = .IDLE := by
      cases st with
      | IDLE => simp [processByte] at h
      | PACKET =>
        simp only [processByte] at h ⊢
        split_ifs at h ⊢
        simp_all
      | ESCAPE =>
        simp only [processByte] at h
        split_ifs at h
    exact ⟨hs2, processByte_from_idle _ nxt hs2⟩
  · intro h
    cases st with
    | IDLE => simp [processByte] at h
    | PACKET =>
      simp only [processByte] at h ⊢
      split_ifs at h ⊢ <;> simp_all
    | ESCAPE =>
      simp only [processByte] at h
      split_ifs at h <;> simp_all

/-- C3 witness: a Complete result (frame C0 01 07 C0, valid checksum)
leaves the decoder in IDLE and the following byte 0x55 starts a fresh
frame. -/
theorem c3_witness :
    (processByte (⟨16, [0x01, 0x07], .PACKET, 0⟩ : Packet) END).2.state = .IDLE ∧
      processByte (processByte (⟨16, [0x01, 0x07], .PACKET, 0⟩ : Packet) END).2 0x55 =
        (.NOT_DONE,
          { (processByte (⟨16, [0x01, 0x07], .PACKET, 0⟩ : Packet) END).2 with
            state := .PACKET, data := [] }) :=
  (c3_restart_after_terminal (⟨16, [0x01, 0x07], .PACKET, 0⟩ : Packet) END 0x55).1
    (by decide)

/-- C3 counterexample to the claim as stated: feeding C0 01 C0 yields the
terminal result TOO_SMALL, but the next `processByte` call does not begin
a fresh frame — the byte 0x37 is appended onto the previous frame's
accumulated contents, giving stored bytes [0x01, 0x37] instead of an
accumulated length reset to 0. -/
theorem c3_counterexample :
    (parseData (freshPacket 16) [0xC0, 0x01, 0xC0]).1 = .TOO_SMALL ∧
    (processByte (parseData (freshPacket 16) [0xC0, 0x01, 0xC0]).2 0x37).2.data =
      [0x01, 0x37] ∧
    (processByte (parseData (freshPacket 16) [0xC0, 0x01, 0xC0]).2 0x37).2.data.length ≠ 0 := by
  decide

/-- C5: receiving END InFrame with at least two accumulated bytes compares
the CRC-8 over all bytes but the last with the last byte: the result is
Complete (NONE, transitioning to IDLE) exactly when they agree, and CRC
exactly when they differ; concretely C0 01 08 C0 yields a CRC mismatch
while C0 01 07 C0 completes with command 0x01. -/
theorem c5_checksum_detection (p : Packet) (h : p.state = .PACKET)
    (h2 : 2 ≤ p.data.length) :
    ((processByte p END).1 = .NONE ↔
      p.data.getD (p.data.length - 1) 0 = Crc8 0 (p.data.take (p.data.length - 1))) ∧
    ((processByte p END).1 = .CRC ↔
      ¬ p.data.getD (p.data.length - 1) 0 = Crc8 0 (p.data.take (p.data.length - 1))) ∧
    (p.data.getD (p.data.length - 1) 0 = Crc8 0 (p.data.take (p.data.length - 1)) →
      (processByte p END).2 = { p with state := .IDLE }) ∧
    (parseData (freshPacket 16) [0xC0, 0x01, 0x08, 0xC0]).1 = .CRC ∧
    (parseData (freshPacket 16) [0xC0, 0x01, 0x07, 0xC0]).1 = .NONE ∧
    (parseData (freshPacket 16) [0xC0, 0x01, 0x07, 0xC0]).2.command = 0x01 := by
  have hne0 : ¬ p.data.length = 0 := by omega
  have hne1 : ¬ p.data.length = 1 := by omega
  have hd0 : ¬ p.data = [] := by
    intro hd
    simp [hd] at hne0
  refine ⟨?_, ?_, fun hc => ?_, by decide, by decide, by decide⟩ <;>
    simp only [processByte, h] <;>
    split_ifs <;> simp_all

/-- C5 witness: a decoder holding 01 07 InFrame completes on END, since
0x07 is the CRC-8 of the single byte 0x01. -/
theorem c5_witness :
    (processByte (⟨16, [0x01, 0x07], .PACKET, 3⟩ : Packet) END).1 = .NONE :=
  ((c5_checksum_detection (⟨16, [0x01, 0x07], .PACKET, 3⟩ : Packet) rfl (by decide)).1).mpr
    (by decide)

/-- Helper: one encoder step that returns NOT_DONE prepends its byte to the
rest of the run. -/
theorem encodeRun_step (p q : Packet) (b : Nat) (fuel : Nat)
    (h : encodeByte p = (b, .NOT_DONE, q)) :
    encodeRun p (fuel + 1) =
      (b :: (encodeRun q fuel).1, (encodeRun q fuel).2.1, (encodeRun q fuel).2.2) := by
  simp [encodeRun, h]

/-- Helper: once every stored byte has been emitted, the next two encoder
steps emit the CRC-8 trailer — unescaped, whatever its value — and the
closing END, and the session completes. -/
theorem encodeRun_trailer (max idx fuel : Nat) (d : List Nat) (h : idx = d.length) :
    encodeRun (⟨max, d, .PACKET, idx⟩ : Packet) (fuel + 2) =
      ([Crc8 0 d, END], .NONE, ⟨max, d, .IDLE, d.length + 1⟩) := by
  subst h
  have h1 : encodeByte (⟨max, d, .PACKET, d.length⟩ : Packet) =
      (Crc8 0 d, .NOT_DONE, ⟨max, d, .PACKET, d.length + 1⟩) := by
    simp [encodeByte]
  have h2 : encodeByte (⟨max, d, .PACKET, d.length + 1⟩ : Packet) =
      (END, .NONE, ⟨max, d, .IDLE, d.length + 1⟩) := by
    simp [encodeByte]
  rw [show fuel + 2 = (fuel + 1) + 1 from rfl, encodeRun_step _ _ _ _ h1]
  simp [encodeRun, h2]

/-- Helper: from InFrame with the first `pre.length` stored bytes already
emitted, the encoder emits the SLIP escape of every remaining stored byte
in order, then the unescaped CRC-8 trailer and the closing END. -/
theorem encodeRun_content (l : List Nat) : ∀ (pre : List Nat) (max fuel : Nat),
    encodeRun (⟨max, pre ++ l, .PACKET, pre.length⟩ : Packet)
        (fuel + (2 * l.length + 2)) =
      (l.flatMap escapeByte ++ [Crc8 0 (pre ++ l), END], .NONE,
        ⟨max, pre ++ l, .IDLE, (pre ++ l).length + 1⟩) := by
  induction l with
  | nil =>
    intro pre max fuel
    simpa using encodeRun_trailer max pre.length fuel pre rfl
  | cons b l ih =>
    intro pre max fuel
    have hget : (pre ++ b :: l).getD pre.length 0 = b := getD_append_len pre l b 0
    have hlen : ¬ (pre ++ b :: l).length ≤ pre.length := by
      rw [List.length_append, List.length_cons]
      omega
    have hsplit : pre ++ b :: l = (pre ++ [b]) ++ l := by simp
    have hlen1 : pre.length + 1 = (pre ++ [b]).length := by simp
    by_cases hb : b = END ∨ b = ESC
    · have h1 : encodeByte (⟨max, pre ++ b :: l, .PACKET, pre.length⟩ : Packet) =
          (ESC, .NOT_DONE, ⟨max, pre ++ b :: l, .ESCAPE, pre.length⟩) := by
        simp only [encodeByte]
        rw [if_neg hlen, if_pos (by rw [hget]; exact hb)]
      have h2 : encodeByte (⟨max, pre ++ b :: l, .ESCAPE, pre.length⟩ : Packet) =
          ((if b = END then ESC_END else ESC_ESC), .NOT_DONE,
            ⟨max, pre ++ b :: l, .PACKET, pre.length + 1⟩) := by
        simp only [encodeByte, hget]
        split_ifs <;> rfl
      have hfuel : fuel + (2 * (b :: l).length + 2) =
          ((fuel + (2 * l.length + 2)) + 1) + 1 := by
        rw [List.length_cons]
        omega
      rw [hfuel, encodeRun_step _ _ _ _ h1, encodeRun_step _ _ _ _ h2]
      rw [hsplit, hlen1] at *
      rw [ih (pre ++ [b]) max fuel]
      rcases hb with rfl | rfl <;> simp [escapeByte, END, ESC, ESC_END, ESC_ESC]
    · push_neg at hb
      have h1 : encodeByte (⟨max, pre ++ b :: l, .PACKET, pre.length⟩ : Packet) =
          (b, .NOT_DONE, ⟨max, pre ++ b :: l, .PACKET, pre.length + 1⟩) := by
        simp only [encodeByte]
        rw [if_neg hlen, if_neg (by rw [hget]; simpa using hb), hget]
      have hfuel : fuel + (2 * (b :: l).length + 2) =
          ((fuel + 1) + (2 * l.length + 2)) + 1 := by
        rw [List.length_cons]
        omega
      rw [hfuel, encodeRun_step _ _ _ _ h1]
      rw [hsplit, hlen1] at *
      rw [ih (pre ++ [b]) max (fuel + 1)]
      simp [escapeByte, hb.1, hb.2]

/-- Helper: a complete encode session on a packet holding `cmd :: payload`
emits the opening END, the SLIP escape of every stored byte, the unescaped
CRC-8 trailer and the closing END, and reports completion. -/
theorem encodeSession_spec (max cmd : Nat) (payload : List Nat) :
    encodeSession (mkTx max cmd payload) =
      (END :: ((cmd :: payload).flatMap escapeByte ++ [Crc8 0 (cmd :: payload), END]),
        .NONE, ⟨max, cmd :: payload, .IDLE, (cmd :: payload).length + 1⟩) := by
  simp only [encodeSession, encodeStart, mkTx]
  have h0 : encodeByte (⟨max, cmd :: payload, .IDLE, 0⟩ : Packet) =
      (END, .NOT_DONE, ⟨max, cmd :: payload, .PACKET, 0⟩) := by
    simp [encodeByte]
  have hfuel : 2 * (cmd :: payload).length + 3 =
      (0 + (2 * (cmd :: payload).length + 2)) + 1 := by
    omega
  rw [hfuel, encodeRun_step _ _ _ _ h0]
  have h := encodeRun_content (cmd :: payload) [] max 0
  simp only [List.nil_append, List.length_nil] at h
  rw [h]

/-- Helper: a NOT_DONE decoder step is absorbed by the parse driver. -/
theorem parseData_step (p q : Packet) (b : Nat) (bs : List Nat)
    (h : processByte p b = (.NOT_DONE, q)) :
    parseData p (b :: bs) = parseData q bs := by
  simp [parseData, h]

/-- Helper: a decoder InFrame with `acc` stored consumes the SLIP-escaped
image of `content` (and room for it) and ends InFrame with `acc ++
content` stored, continuing on any remaining input. -/
theorem parse_escaped (content : List Nat) :
    ∀ (acc : List Nat) (max i : Nat) (rest : List Nat),
    acc.length + content.length ≤ max →
    parseData (⟨max, acc, .PACKET, i⟩ : Packet) (content.flatMap escapeByte ++ rest) =
      parseData (⟨max, acc ++ content, .PACKET, i⟩ : Packet) rest := by
  induction content with
  | nil =>
    intro acc max i rest h
    simp
  | cons b l ih =>
    intro acc max i rest h
    rw [List.length_cons] at h
    have hroom : ¬ max ≤ acc.length := by omega
    have hih := ih (acc ++ [b]) max i rest (by simp; omega)
    rw [List.append_assoc, List.singleton_append] at hih
    by_cases hbe : b = END
    · subst hbe
      have e1 : processByte (⟨max, acc, .PACKET, i⟩ : Packet) ESC =
          (.NOT_DONE, ⟨max, acc, .ESCAPE, i⟩) := by
        simp only [processByte]
        rw [if_neg (by decide), if_neg hroom]
        simp
      have e2 : processByte (⟨max, acc, .ESCAPE, i⟩ : Packet) ESC_END =
          (.NOT_DONE, ⟨max, acc ++ [END], .PACKET, i⟩) := by
        simp [processByte]
      rw [show (END :: l).flatMap escapeByte ++ rest =
            ESC :: ESC_END :: (l.flatMap escapeByte ++ rest) by
          simp [escapeByte]]
      rw [parseData_step _ _ _ _ e1, parseData_step _ _ _ _ e2]
      exact hih
    · by_cases hbs : b = ESC
      · subst hbs
        have e1 : processByte (⟨max, acc, .PACKET, i⟩ : Packet) ESC =
            (.NOT_DONE, ⟨max, acc, .ESCAPE, i⟩) := by
          simp only [processByte]
          rw [if_neg (by decide), if_neg hroom]
          simp
        have e2 : processByte (⟨max, acc, .ESCAPE, i⟩ : Packet) ESC_ESC =
            (.NOT_DONE, ⟨max, acc ++ [ESC], .PACKET, i⟩) := by
          simp only [processByte]
          rw [if_neg (by decide)]
          simp
        rw [show (ESC :: l).flatMap escapeByte ++ rest =
              ESC :: ESC_ESC :: (l.flatMap escapeByte ++ rest) by
            simp [escapeByte, ESC, END]]
        rw [parseData_step _ _ _ _ e1, parseData_step _ _ _ _ e2]
        exact hih
      · have e1 : processByte (⟨max, acc, .PACKET, i⟩ : Packet) b =
            (.NOT_DONE, ⟨max, acc ++ [b], .PACKET, i⟩) := by
          simp only [processByte]
          rw [if_neg hbe, if_neg hroom, if_neg hbs]
        rw [show (b :: l).flatMap escapeByte ++ rest =
              b :: (l.flatMap escapeByte ++ rest) by
            simp [escapeByte, hbe, hbs]]
        rw [parseData_step _ _ _ _ e1]
        exact hih

/-- Helper: a fresh decoder fed the wire image of a non-empty `content`
whose CRC-8 is neither END nor ESC completes with `content ++ [crc]`
stored and returns to IDLE. -/
theorem decode_of_encoded (max : Nat) (content : List Nat)
    (hne : content ≠ []) (hlen : content.length + 1 ≤ max)
    (hc_end : Crc8 0 content ≠ END) (hc_esc : Crc8 0 content ≠ ESC) :
    parseData (freshPacket max)
        (END :: (content.flatMap escapeByte ++ [Crc8 0 content, END])) =
      (.NONE, ⟨max, content ++ [Crc8 0 content], .IDLE, 0⟩) := by
  have h0 : processByte (freshPacket max) END =
      (.NOT_DONE, ⟨max, [], .PACKET, 0⟩) := by
    simp [processByte, freshPacket]
  rw [parseData_step _ _ _ _ h0]
  rw [parse_escaped content [] max 0 [Crc8 0 content, END] (by simp; omega)]
  have h1 : processByte (⟨max, content, .PACKET, 0⟩ : Packet) (Crc8 0 content) =
      (.NOT_DONE, ⟨max, content ++ [Crc8 0 content], .PACKET, 0⟩) := by
    simp only [processByte]
    rw [if_neg hc_end, if_neg (by simp; omega), if_neg hc_esc]
  rw [List.nil_append, parseData_step _ _ _ _ h1]
  have hL : (content ++ [Crc8 0 content]).length = content.length + 1 := by simp
  have hcpos : 1 ≤ content.length := by
    cases content with
    | nil => exact absurd rfl hne
    | cons x xs => simp
  have hg : (content ++ [Crc8 0 content]).getD
      ((content ++ [Crc8 0 content]).length - 1) 0 = Crc8 0 content := by
    rw [hL, Nat.add_sub_cancel]
    exact getD_append_len content [] (Crc8 0 content) 0
  have ht : (content ++ [Crc8 0 content]).take
      ((content ++ [Crc8 0 content]).length - 1) = content := by
    rw [hL, Nat.add_sub_cancel]
    simp
  have h2 : processByte (⟨max, content ++ [Crc8 0 content], .PACKET, 0⟩ : Packet) END =
      (.NONE, ⟨max, content ++ [Crc8 0 content], .IDLE, 0⟩) := by
    simp only [processByte]
    rw [if_pos trivial, if_neg (by rw [hL]; omega), if_neg (by rw [hL]; omega),
      if_pos (by rw [hg, ht])]
  simp [parseData, h2]

/-- C1 (amended): the round-trip law holds whenever the CRC-8 of
command+payload is neither END (0xC0) nor ESC (0xDB) — a side condition
the code forces because `encodeByte` emits the CRC trailer unescaped.
Under it, for every command byte and payload shorter than capacity-2, a
complete encode session reports completion, and feeding its bytes one at
a time into a fresh decoder ends with Complete and reproduces the command
and payload exactly, with the received trailing checksum byte equal to
the CRC-8 over command+payload. -/
theorem c1_round_trip (cap cmd : Nat) (payload : List Nat)
    (hcap : payload.length < cap - 2)
    (hc_end : Crc8 0 (cmd :: payload) ≠ END)
    (hc_esc : Crc8 0 (cmd :: payload) ≠ ESC) :
    (encodeSession (mkTx cap cmd payload)).2.1 = .NONE ∧
    parseData (freshPacket cap) (encodeSession (mkTx cap cmd payload)).1 =
      (.NONE, ⟨cap, (cmd :: payload) ++ [Crc8 0 (cmd :: payload)], .IDLE, 0⟩) ∧
    (parseData (freshPacket cap) (encodeSession (mkTx cap cmd payload)).1).2.command =
      cmd ∧
    (parseData (freshPacket cap) (encodeSession (mkTx cap cmd payload)).1).2.payload =
      payload ∧
    (parseData (freshPacket cap) (encodeSession (mkTx cap cmd payload)).1).2.crc =
      some (Crc8 0 (cmd :: payload)) := by
  have hlen : (cmd :: payload).length + 1 ≤ cap := by
    rw [List.length_cons]
    omega
  have hs := encodeSession_spec cap cmd payload
  have hd := decode_of_encoded cap (cmd :: payload) (by simp) hlen hc_end hc_esc
  simp only [hs, hd]
  refine ⟨trivial, trivial, rfl, ?_, ?_⟩
  · show Packet.payload _ = _
    simp [Packet.payload]
  · show Packet.crc _ = _
    unfold Packet.crc
    rw [if_pos (by simp)]
    simp

/-- C1 witness: command 0x01 with payload [0x02] and capacity 16 satisfies
the hypotheses (its CRC-8 is 0x1b) and round-trips. -/
theorem c1_witness :
    parseData (freshPacket 16) (encodeSession (mkTx 16 0x01 [0x02])).1 =
      (.NONE, ⟨16, (0x01 :: [0x02]) ++ [Crc8 0 (0x01 :: [0x02])], .IDLE, 0⟩) :=
  (c1_round_trip 16 0x01 [0x02] (by decide) (by decide) (by decide)).2.1

/-- C1 counterexample to the claim as stated: command 0x01 with payload
[0x46] (length 1 < 16 - 2) has CRC-8 0xC0, which the encoder emits as a
raw unescaped END; the decoder therefore closes the frame one byte early
and reports a CRC mismatch instead of Complete. -/
theorem c1_counterexample :
    (encodeSession (mkTx 16 0x01 [0x46])).2.1 = .NONE ∧
    Crc8 0 [0x01, 0x46] = 0xC0 ∧
    (encodeSession (mkTx 16 0x01 [0x46])).1 = [0xC0, 0x01, 0x46, 0xC0, 0xC0] ∧
    (parseData (freshPacket 16) (encodeSession (mkTx 16 0x01 [0x46])).1).1 = .CRC := by
  decide

/-- C2 (amended): in a complete encode session the escaping applies to the
stored command and payload bytes only: the output is the opening END, then
for each stored byte its SLIP image — the two-byte sequence ESC ESC_END
for 0xC0 and ESC ESC_ESC for 0xDB, the byte itself otherwise — then the
CRC-8 trailer emitted raw even when it equals 0xC0 or 0xDB, then the
closing END. -/
theorem c2_escaping (cap cmd : Nat) (payload : List Nat) :
    (encodeSession (mkTx cap cmd payload)).1 =
      END :: ((cmd :: payload).flatMap escapeByte ++ [Crc8 0 (cmd :: payload), END]) ∧
    escapeByte END = [ESC, ESC_END] ∧
    escapeByte ESC = [ESC, ESC_ESC] ∧
    (∀ b, b ≠ END → b ≠ ESC → escapeByte b = [b]) := by
  refine ⟨?_, by decide, by decide, fun b h1 h2 => ?_⟩
  · rw [encodeSession_spec cap cmd payload]
  · simp [escapeByte, h1, h2]

/-- C2 witness: encoding command 0xC0 with payload [0xDB] (capacity 16)
escapes both reserved content bytes. -/
theorem c2_witness :
    (encodeSession (mkTx 16 0xC0 [0xDB])).1 =
      END :: ((0xC0 :: [0xDB]).flatMap escapeByte ++ [Crc8 0 (0xC0 :: [0xDB]), END]) ∧
    escapeByte 0x02 = [0x02] :=
  ⟨(c2_escaping 16 0xC0 [0xDB]).1,
    (c2_escaping 16 0xC0 [0xDB]).2.2.2 0x02 (by decide) (by decide)⟩

/-- C2 counterexample to the claim as stated: encoding command 0x41 with
empty payload produces the CRC-8 trailer 0xC0 unescaped, so the output
contains three raw END bytes — an unescaped END that is not one of the two
frame delimiters — instead of the escape sequence DB DC at the trailer
position. -/
theorem c2_counterexample :
    Crc8 0 [0x41] = 0xC0 ∧
    (encodeSession (mkTx 16 0x41 [])).1 = [0xC0, 0x41, 0xC0, 0xC0] ∧
    (encodeSession (mkTx 16 0x41 [])).1.count 0xC0 = 3 ∧
    (encodeSession (mkTx 16 0x41 [])).1 ≠ [0xC0, 0x41, 0xDB, 0xDC, 0xC0] := by
  decide
